import Mathlib

/-!
Verification of the motor bench-test web application's core layer.

The definitions below are shallow embeddings of the JavaScript source:
JS numbers are modelled as `ℚ` (all arithmetic in the claims is exact
rational arithmetic; `Math.round`/`Math.floor` become `Int` floors),
lists model JS arrays, and the cooperative event-loop interleavings of
the command queue and the safety watchdog are modelled as explicit
state-transition systems whose suspension points match the `await`
points of the source.
-/

namespace UavmLab

/-! ## Throttle mapping (analizeTab `sendThrottle` / `rampThrottle`) -/

/-- JS `Math.round` on the nonnegative values used here: `⌊x + 1/2⌋`. -/
def jsRound (x : ℚ) : ℤ := ⌊x + 1/2⌋

/-- Arm-floor percentage derived from the profile's raw arm-throttle value:
`((armThrottleRaw - 48) / (2047 - 48)) * 100`, as computed in
`sendThrottle` and `stopAnalyze`. -/
def armPercentOf (armRaw : ℚ) : ℚ := (armRaw - 48) / (2047 - 48) * 100

/-- The percent-to-raw conversion applied after clamping:
`Math.round(48 + (percent / 100) * (2047 - 48))`. -/
def escOf (p : ℚ) : ℤ := jsRound (48 + p / 100 * (2047 - 48))

/-- Embedding of `sendThrottle`: `percent = Math.max(percent, armPercent)`,
then `percent = clamp(percent, 0, 100)` with `clamp(v,a,b) = max(a, min(b,v))`,
then the raw conversion. Returns the raw value written to the device. -/
def sendThrottleEsc (armRaw pct : ℚ) : ℤ :=
  let armPercent := armPercentOf armRaw
  let p1 := max pct armPercent
  let p2 := max 0 (min 100 p1)
  jsRound (48 + p2 / 100 * (2047 - 48))

/-- The clamped percentage recorded as `currentThrottle` by `sendThrottle`. -/
def clampPct (armRaw pct : ℚ) : ℚ := max 0 (min 100 (max pct (armPercentOf armRaw)))

lemma armPercentOf_nonneg {armRaw : ℤ} (h1 : 48 ≤ armRaw) :
    0 ≤ armPercentOf (armRaw : ℚ) := by
  have h : (48 : ℚ) ≤ (armRaw : ℚ) := by exact_mod_cast h1
  unfold armPercentOf
  apply mul_nonneg _ (by norm_num)
  apply div_nonneg (by linarith) (by norm_num)

lemma armPercentOf_le_100 {armRaw : ℤ} (h2 : armRaw ≤ 2047) :
    armPercentOf (armRaw : ℚ) ≤ 100 := by
  have h : (armRaw : ℚ) ≤ 2047 := by exact_mod_cast h2
  unfold armPercentOf
  rw [div_mul_eq_mul_div, div_le_iff₀ (by norm_num : (0:ℚ) < 2047 - 48)]
  linarith

lemma escOf_armPercent {armRaw : ℤ} :
    escOf (armPercentOf (armRaw : ℚ)) = armRaw := by
  have hval : (48 : ℚ) + armPercentOf (armRaw : ℚ) / 100 * (2047 - 48) = (armRaw : ℚ) := by
    unfold armPercentOf; ring
  unfold escOf jsRound
  rw [hval, Int.floor_int_add]
  norm_num

lemma sendThrottleEsc_eq_escOf_clamp (armRaw pct : ℚ) :
    sendThrottleEsc armRaw pct = escOf (clampPct armRaw pct) := rfl

lemma clampPct_eq_spec_clamp {armRaw : ℤ} (h1 : 48 ≤ armRaw) (h2 : armRaw ≤ 2047)
    (pct : ℚ) :
    clampPct (armRaw : ℚ) pct = max (armPercentOf (armRaw : ℚ)) (min pct 100) := by
  have h0 : 0 ≤ armPercentOf (armRaw : ℚ) := armPercentOf_nonneg h1
  have h100 : armPercentOf (armRaw : ℚ) ≤ 100 := armPercentOf_le_100 h2
  unfold clampPct
  rcases le_total pct (armPercentOf (armRaw : ℚ)) with h | h
  · rw [max_eq_right h, min_eq_right h100, max_eq_right h0,
      max_eq_left (le_trans (min_le_left _ _) h)]
  · rw [max_eq_left h, max_eq_right (le_min h h100), min_comm (100:ℚ) pct,
      max_eq_right (le_min (le_trans h0 h) (by norm_num))]

/-- Claim C5: for every `pct` requested via `sendThrottle`, the raw throttle
value sent is the monotone map `escOf` applied to
`clamp(pct, armFloorPct, 100)`, and any request at or below the floor yields
exactly the floor's raw encoding (the profile's own raw arm-throttle value). -/
theorem sendThrottle_clamp_monotone (armRaw : ℤ) (h1 : 48 ≤ armRaw) (h2 : armRaw ≤ 2047) :
    Monotone escOf
    ∧ (∀ pct : ℚ, sendThrottleEsc (armRaw : ℚ) pct
        = escOf (max (armPercentOf (armRaw : ℚ)) (min pct 100)))
    ∧ (∀ pct : ℚ, pct ≤ armPercentOf (armRaw : ℚ) →
        sendThrottleEsc (armRaw : ℚ) pct = armRaw) := by
  have h0 : 0 ≤ armPercentOf (armRaw : ℚ) := armPercentOf_nonneg h1
  have h100 : armPercentOf (armRaw : ℚ) ≤ 100 := armPercentOf_le_100 h2
  refine ⟨?_, ?_, ?_⟩
  · intro a b hab
    unfold escOf jsRound
    apply Int.floor_mono
    linarith
  · intro pct
    rw [sendThrottleEsc_eq_escOf_clamp, clampPct_eq_spec_clamp h1 h2]
  · intro pct hle
    rw [sendThrottleEsc_eq_escOf_clamp]
    have harg : clampPct (armRaw : ℚ) pct = armPercentOf (armRaw : ℚ) := by
      unfold clampPct
      rw [max_eq_right hle, min_eq_right h100, max_eq_right h0]
    rw [harg]
    exact escOf_armPercent

/-- Witness for C5: a profile with raw arm-throttle 100; requesting 0%
(below the floor) yields raw value 100, the floor's own encoding. -/
theorem sendThrottle_clamp_monotone_witness :
    sendThrottleEsc ((100 : ℤ) : ℚ) 0 = 100 :=
  (sendThrottle_clamp_monotone 100 (by decide) (by decide)).2.2 0
    (armPercentOf_nonneg (by decide))

/-! ## Ramps (analizeTab `rampThrottle`, `stopAnalyze`, error finalization) -/

/-- Events emitted by `rampThrottle`: a throttle command with its requested
percentage, or a sleep of the loop's fixed step delay. -/
inductive REv where
  | cmd (pct : ℚ)
  | sleepMs (ms : ℤ)
  deriving DecidableEq, Repr

/-- The loop delay of `rampThrottle`: `Math.max(10, Math.floor(durationMs / 25))`. -/
def rampDt (durationMs : ℚ) : ℤ := max 10 ⌊durationMs / 25⌋

/-- Embedding of `rampThrottle(fromPercent, toPercent, durationMs)`: with
`steps = 25` and `delta = (toPercent - fromPercent) / steps`, the loop runs
`i = 0..25`, each iteration calling `sendThrottle(fromPercent + delta * i)`
and then sleeping `dt`. -/
def rampEvents (fromP toP durationMs : ℚ) : List REv :=
  let dt := rampDt durationMs
  let delta := (toP - fromP) / 25
  ((List.range 26).map fun i => [REv.cmd (fromP + delta * i), REv.sleepMs dt]).flatten

/-- The body of `rampThrottle` never reads the shared cancellation flag
`state.analysis.running`; this variant makes the ambient flag (indexed by
loop step) an explicit input to record that fact. -/
def rampEventsUnderFlag (fromP toP durationMs : ℚ) (running : ℕ → Bool) : List REv :=
  rampEvents fromP toP durationMs

/-- The requested percentages of a ramp's command events. -/
def cmdsOf (l : List REv) : List ℚ :=
  l.filterMap fun e => match e with | .cmd p => some p | _ => none

/-- The sleep durations of a ramp's events. -/
def sleepsOf (l : List REv) : List ℤ :=
  l.filterMap fun e => match e with | .sleepMs d => some d | _ => none

lemma cmdsOf_rampEvents (a b d : ℚ) :
    cmdsOf (rampEvents a b d)
      = (List.range 26).map (fun i : ℕ => a + (b - a) / 25 * (i : ℚ)) := rfl

/-- Claim C6 (amended): `rampThrottle(a, b, d)` issues exactly 26 throttle
commands, evenly spaced by `(b - a)/25` from `a` up to and including `b`,
and sleeps `max(10, ⌊d/25⌋)` ms after every command (including the last);
the emitted sequence is identical under every value of the cancellation
flag, because the loop never reads it. -/
theorem rampThrottle_profile (a b d : ℚ) :
    (cmdsOf (rampEvents a b d)).length = 26
    ∧ (cmdsOf (rampEvents a b d)).head? = some a
    ∧ (cmdsOf (rampEvents a b d)).getLast? = some b
    ∧ (∀ i : ℕ, ∀ x y : ℚ, (cmdsOf (rampEvents a b d))[i]? = some x →
        (cmdsOf (rampEvents a b d))[i+1]? = some y → y - x = (b - a) / 25)
    ∧ sleepsOf (rampEvents a b d) = List.replicate 26 (rampDt d)
    ∧ (∀ fl : ℕ → Bool, rampEventsUnderFlag a b d fl = rampEvents a b d) := by
  refine ⟨rfl, ?_, ?_, ?_, rfl, fun _ => rfl⟩
  · show some (a + (b - a) / 25 * ((0:ℕ):ℚ)) = some a
    norm_num
  · show some (a + (b - a) / 25 * ((25:ℕ):ℚ)) = some b
    push_cast
    ring_nf
  · intro i x y hx hy
    have hi : i + 1 < 26 := by
      have hlen := (List.getElem?_eq_some_iff.mp hy).1
      have h26 : (cmdsOf (rampEvents a b d)).length = 26 := rfl
      omega
    rw [cmdsOf_rampEvents, List.getElem?_map, List.getElem?_range hi] at hy
    rw [cmdsOf_rampEvents, List.getElem?_map,
      List.getElem?_range (Nat.lt_of_succ_lt hi)] at hx
    simp only [Option.map_some'] at hx hy
    obtain rfl : x = a + (b - a) / 25 * (i : ℚ) := by exact_mod_cast (Option.some_inj.mp hx).symm
    obtain rfl : y = a + (b - a) / 25 * ((i:ℚ) + 1) := by
      have := (Option.some_inj.mp hy).symm
      rw [this]
      push_cast
      ring
    ring

/-- Counterexample to C6 as stated: a ramp whose cancellation flag is cleared
before the very first step still issues all 26 throttle commands, so the loop
does not check the cancellation flag between steps. -/
theorem rampThrottle_cancel_counterexample :
    (cmdsOf (rampEventsUnderFlag 0 100 1000 (fun _ => false))).length = 26
    ∧ rampEventsUnderFlag 0 100 1000 (fun _ => false)
        = rampEventsUnderFlag 0 100 1000 (fun _ => true) :=
  ⟨rfl, rfl⟩

/-- Witness for C6 (amended): for the ramp from 0 to 100 over 1000 ms, the
first two commands are 4 apart, matching the common step `(100 - 0)/25`. -/
theorem rampThrottle_profile_witness :
    ∃ x y : ℚ, (cmdsOf (rampEvents 0 100 1000))[0]? = some x
      ∧ (cmdsOf (rampEvents 0 100 1000))[1]? = some y
      ∧ y - x = (100 - 0) / 25 :=
  ⟨_, _, rfl, rfl, (rampThrottle_profile 0 100 1000).2.2.2.1 0 _ _ rfl rfl⟩

/-! ## Run finalization: `stopAnalyze` vs the error exit of `startAnalyze` -/

/-- The KV mode's current-ceiling guard:
`if (last.current && last.current > currentCeiling) throw ...`. -/
def kvCurrentCheck (current ceiling : ℚ) : Option String :=
  if current ≠ 0 ∧ current > ceiling then some "Current ceiling exceeded" else none

/-- Outcome of the `catch`/`finally` blocks of `startAnalyze`. -/
structure FinalizeOut where
  running : Bool
  stopping : Bool
  lastError : Option String
  rampCmds : List ℚ
  deriving Repr, DecidableEq

/-- Embedding of the error exit of `startAnalyze`: the `catch` block records
the mode error in `state.analysis.lastError` and the `finally` block clears
`running`/`stopping`, stops the sampler and saves history; neither block
contains any `sendThrottle`/`rampThrottle` call, so `rampCmds` is empty. -/
def startAnalyzeErrorExit (modeError : Option String) : FinalizeOut :=
  { running := false, stopping := false, lastError := modeError, rampCmds := [] }

/-- Embedding of the ramp performed by `stopAnalyze`:
`rampThrottle(currentThrottle, armPercent, 2500)` with
`armPercent = ((armThrottleRaw - 48) / (2047 - 48)) * 100`. -/
def stopAnalyzeRampEvents (currentThrottle armRaw : ℚ) : List REv :=
  rampEvents currentThrottle (armPercentOf armRaw) 2500

/-- Claim C1, evaluated at a failing input: `stopAnalyze` does ramp the
current throttle (50%) down to the arm floor in 26 steps of 100 ms
(the fixed 2.5 s window), but a run terminated by a mode error (here the
KV current-ceiling guard firing at current 12 A against ceiling 10 A)
reaches only the `catch`/`finally` exit, which records `lastError` and
issues no throttle command at all: the safety ramp-down is skipped under
error conditions. -/
theorem stop_ramps_but_error_exit_does_not :
    armPercentOf 48 = 0
    ∧ (cmdsOf (stopAnalyzeRampEvents 50 48)).length = 26
    ∧ (cmdsOf (stopAnalyzeRampEvents 50 48)).head? = some 50
    ∧ (cmdsOf (stopAnalyzeRampEvents 50 48)).getLast? = some (armPercentOf 48)
    ∧ rampDt 2500 = 100
    ∧ kvCurrentCheck 12 10 = some "Current ceiling exceeded"
    ∧ (startAnalyzeErrorExit (kvCurrentCheck 12 10)).lastError
        = some "Current ceiling exceeded"
    ∧ (startAnalyzeErrorExit (kvCurrentCheck 12 10)).rampCmds = [] := by
  have harm : armPercentOf 48 = 0 := by norm_num [armPercentOf]
  have hkv : kvCurrentCheck 12 10 = some "Current ceiling exceeded" := by
    norm_num [kvCurrentCheck]
  refine ⟨harm, rfl, ?_, ?_, ?_, hkv, ?_, ?_⟩
  · show some ((50:ℚ) + (armPercentOf 48 - 50) / 25 * ((0:ℕ):ℚ)) = some 50
    norm_num
  · show some ((50:ℚ) + (armPercentOf 48 - 50) / 25 * ((25:ℕ):ℚ)) = some (armPercentOf 48)
    rw [harm]
    norm_num
  · unfold rampDt
    rw [show ((2500:ℚ) / 25) = ((100:ℤ):ℚ) by norm_num, Int.floor_intCast]
    decide
  · rw [hkv]
    rfl
  · rfl

/-! ## Command failures inside `sendThrottle` (sequencer error handling) -/

/-- Sequencer-visible state threaded through `sendThrottle` calls. -/
structure SeqSt where
  currentThrottle : ℚ
  attempts : List ℤ
  logCount : ℕ
  lastError : Option String
  deriving Repr, DecidableEq

/-- Embedding of one `sendThrottle(percent)` call against a channel whose
write either resolves (`channelOk = true`) or rejects: the raw value is
computed and the write attempted in both cases; a rejection is caught
inside `sendThrottle` and merely appended to the log (`appendLog`), while
success additionally records the clamped percent as `currentThrottle`.
The function always returns normally — no error propagates to the caller,
and `state.analysis.lastError` is untouched. -/
def sendThrottleStep (armRaw : ℚ) (channelOk : Bool) (s : SeqSt) (pct : ℚ) : SeqSt :=
  let esc := sendThrottleEsc armRaw pct
  if channelOk then
    { s with attempts := s.attempts ++ [esc], currentThrottle := clampPct armRaw pct }
  else
    { s with attempts := s.attempts ++ [esc], logCount := s.logCount + 1 }

/-- A mode algorithm issuing a sequence of throttle requests, each paired
with that write's channel outcome: because `sendThrottleStep` returns
normally in all cases, the loop always proceeds to the next request. -/
def runThrottleSeq (armRaw : ℚ) : SeqSt → List (ℚ × Bool) → SeqSt
  | s, [] => s
  | s, (pct, ok) :: rest => runThrottleSeq armRaw (sendThrottleStep armRaw ok s pct) rest

/-- Claim C7 (amended): a rejected command write inside `sendThrottle` is
caught and logged, not treated as fatal: every remaining request of the
mode algorithm is still attempted and the run's `lastError` is unchanged
by command failures. -/
theorem sendThrottle_swallows_rejection (armRaw : ℚ) (s : SeqSt) (l : List (ℚ × Bool)) :
    (runThrottleSeq armRaw s l).attempts.length = s.attempts.length + l.length
    ∧ (runThrottleSeq armRaw s l).lastError = s.lastError := by
  induction l generalizing s with
  | nil => simp [runThrottleSeq]
  | cons hd tl ih =>
    obtain ⟨pct, ok⟩ := hd
    have hstep : (sendThrottleStep armRaw ok s pct).attempts.length
        = s.attempts.length + 1 ∧ (sendThrottleStep armRaw ok s pct).lastError
        = s.lastError := by
      cases ok <;> simp [sendThrottleStep]
    obtain ⟨ha, he⟩ := hstep
    obtain ⟨iha, ihe⟩ := ih (sendThrottleStep armRaw ok s pct)
    refine ⟨?_, by rw [runThrottleSeq] at *; rw [ihe, he]⟩
    rw [runThrottleSeq] at *
    rw [iha, ha]
    simp [List.length_cons]
    omega

/-- Counterexample to C7 as stated: a run whose channel rejects every write
(first failure at the very first command) still attempts all three requested
commands and ends with `lastError = none` — the rejection is not recorded
and the run is not diverted to a ramp-down path. -/
theorem sendThrottle_rejection_not_fatal_counterexample :
    (runThrottleSeq 48 ⟨0, [], 0, none⟩ [(10, false), (20, false), (30, false)]).attempts.length = 3
    ∧ (runThrottleSeq 48 ⟨0, [], 0, none⟩ [(10, false), (20, false), (30, false)]).lastError = none
    ∧ (runThrottleSeq 48 ⟨0, [], 0, none⟩ [(10, false), (20, false), (30, false)]).logCount = 3 := by
  refine ⟨rfl, rfl, rfl⟩

/-! ## Run entry guard of `startAnalyze` -/

/-- The per-run data store allocated by `resetDataStore()`. -/
structure DataStore where
  timestamps : List ℚ
  throttle : List ℚ
  voltage : List ℚ
  current : List ℚ
  power : List ℚ
  rpm : List ℚ
  thrust : List ℚ
  escTemp : List ℚ
  motorTemp : List ℚ
  deriving Repr, DecidableEq

/-- Fresh data store with all nine series empty. -/
def resetDataStore : DataStore := ⟨[], [], [], [], [], [], [], [], []⟩

/-- The `state.analysis` record touched by `startAnalyze`. -/
structure AnalysisSt where
  running : Bool
  stopping : Bool
  mode : String
  data : Option DataStore
  lastError : Option String
  history : List String
  deriving Repr, DecidableEq

/-- Embedding of the entry of `startAnalyze(mode, params)`: the guard
`if (state.analysis.running) return;` comes before any other statement;
otherwise the analysis state is initialized and the run starts. The result
carries the new state, the commands issued so far (none at entry), and
whether a run was started. -/
def startAnalyzeEntry (s : AnalysisSt) (mode : String) : AnalysisSt × List ℤ × Bool :=
  if s.running then (s, [], false)
  else
    ({ running := true, stopping := false, mode := mode,
       data := some resetDataStore, lastError := none, history := s.history },
     [], true)

/-- Claim C10: calling `startAnalyze` while a run is active returns
immediately: no command is issued, no field of the analysis state changes,
and no second run starts. -/
theorem startAnalyze_reentrancy_guard (s : AnalysisSt) (mode : String)
    (h : s.running = true) :
    startAnalyzeEntry s mode = (s, [], false) := by
  simp [startAnalyzeEntry, h]

/-- Witness for C10: a concrete active run state is returned unchanged. -/
theorem startAnalyze_reentrancy_guard_witness :
    startAnalyzeEntry ⟨true, false, "sweep", some resetDataStore, none, []⟩ "kv"
      = (⟨true, false, "sweep", some resetDataStore, none, []⟩, [], false) :=
  startAnalyze_reentrancy_guard ⟨true, false, "sweep", some resetDataStore, none, []⟩ "kv" rfl

/-! ## Safety watchdog (`checkMotorStatus` in controlTab.js) -/

/-- Watchdog state: the pending auto-disarm timer (`autoDisarmTimeout`,
holding its expiry time), the `autoDisarmInProgress` flag, the last status
bits rendered to the armed/spinning indicator dots, and the number of
`disarm` commands issued. -/
structure WDState where
  pending : Option ℕ
  inProgress : Bool
  lastArmed : Bool
  lastSpinning : Bool
  disarms : ℕ
  deriving Repr, DecidableEq

/-- The idle watchdog: no timer, no disarm in flight. -/
def wdInit : WDState := ⟨none, false, false, false, 0⟩

/-- Embedding of one status update at time `t`: `updateStatusIndicators`
first renders the armed/spinning dots, then `checkMotorStatus` runs: if the
status shows armed and not spinning, a 2000 ms timer is started — but only
when no timer is pending and no auto-disarm is in progress; otherwise any
pending timer is cancelled. -/
def statusUpdate (s : WDState) (t : ℕ) (armed spinning : Bool) : WDState :=
  let s1 := { s with lastArmed := armed, lastSpinning := spinning }
  if armed && !spinning then
    if s1.pending = none && !s1.inProgress then { s1 with pending := some (t + 2000) }
    else s1
  else
    { s1 with pending := none }

/-- Embedding of the timer callback at expiry: it re-checks the armed and
spinning indicator dots (which reflect the last status update); if the
device still reports armed and not spinning it sets `autoDisarmInProgress`
and issues exactly one `disarm` command; in every case the timer handle is
cleared. -/
def timerFire (s : WDState) : WDState :=
  if s.lastArmed && !s.lastSpinning then
    { s with pending := none, inProgress := true, disarms := s.disarms + 1 }
  else
    { s with pending := none }

/-- Completion of the issued `disarm` command (`handleDisarm().finally`):
clears `autoDisarmInProgress`. -/
def disarmDone (s : WDState) : WDState := { s with inProgress := false }

/-- Whether the timer can still fire. -/
def fireEnabled (s : WDState) : Bool := s.pending.isSome

lemma statusUpdate_armed_invariant (e d : ℕ) :
    ∀ (ts : List ℕ) (s : WDState), s.pending = some e → s.inProgress = false →
      s.lastArmed = true → s.lastSpinning = false → s.disarms = d →
      (ts.foldl (fun s t => statusUpdate s t true false) s).pending = some e
      ∧ (ts.foldl (fun s t => statusUpdate s t true false) s).inProgress = false
      ∧ (ts.foldl (fun s t => statusUpdate s t true false) s).lastArmed = true
      ∧ (ts.foldl (fun s t => statusUpdate s t true false) s).lastSpinning = false
      ∧ (ts.foldl (fun s t => statusUpdate s t true false) s).disarms = d := by
  intro ts
  induction ts with
  | nil => intro s h1 h2 h3 h4 h5; exact ⟨h1, h2, h3, h4, h5⟩
  | cons t ts ih =>
    intro s h1 h2 h3 h4 h5
    have hstep : statusUpdate s t true false = { s with lastArmed := true, lastSpinning := false } := by
      unfold statusUpdate
      simp [h1]
    rw [List.foldl_cons, hstep]
    exact ih _ h1 h2 rfl rfl h5

/-- Claim C2: starting from an idle watchdog, a status update showing
armed-and-not-spinning at time `t0` starts a single 2000 ms timer; further
armed-and-not-spinning updates before expiry never replace it or issue
anything; at expiry exactly one `disarm` is issued and the timer is cleared,
and while that disarm is in flight no new timer starts. If instead a status
showing not-armed-or-spinning arrives before expiry, the timer is cancelled,
no disarm is ever issued, and the expiry callback can no longer run. -/
theorem watchdog_disarm_exactly_once (t0 : ℕ) (ts : List ℕ) (s0 : WDState)
    (h1 : s0.pending = none) (h2 : s0.inProgress = false) (h3 : s0.disarms = 0) :
    ((ts.foldl (fun s t => statusUpdate s t true false)
        (statusUpdate s0 t0 true false)).pending = some (t0 + 2000))
    ∧ ((timerFire (ts.foldl (fun s t => statusUpdate s t true false)
        (statusUpdate s0 t0 true false))).disarms = 1)
    ∧ ((timerFire (ts.foldl (fun s t => statusUpdate s t true false)
        (statusUpdate s0 t0 true false))).pending = none)
    ∧ (∀ t1, (statusUpdate (timerFire (ts.foldl (fun s t => statusUpdate s t true false)
        (statusUpdate s0 t0 true false))) t1 true false).pending = none)
    ∧ (∀ t2 a sp, (a && !sp) = false →
        (statusUpdate (ts.foldl (fun s t => statusUpdate s t true false)
          (statusUpdate s0 t0 true false)) t2 a sp).pending = none
        ∧ (statusUpdate (ts.foldl (fun s t => statusUpdate s t true false)
          (statusUpdate s0 t0 true false)) t2 a sp).disarms = 0
        ∧ fireEnabled (statusUpdate (ts.foldl (fun s t => statusUpdate s t true false)
          (statusUpdate s0 t0 true false)) t2 a sp) = false) := by
  have hstart : statusUpdate s0 t0 true false
      = { s0 with lastArmed := true, lastSpinning := false, pending := some (t0 + 2000) } := by
    unfold statusUpdate
    simp [h1, h2]
  obtain ⟨hp, hip, ha, hsp, hd⟩ :=
    statusUpdate_armed_invariant (t0 + 2000) 0 ts (statusUpdate s0 t0 true false)
      (by rw [hstart]) (by rw [hstart]; exact h2) (by rw [hstart]) (by rw [hstart])
      (by rw [hstart]; exact h3)
  set sF := ts.foldl (fun s t => statusUpdate s t true false) (statusUpdate s0 t0 true false)
  have hfire : timerFire sF
      = { sF with pending := none, inProgress := true, disarms := sF.disarms + 1 } := by
    unfold timerFire
    rw [ha, hsp]
    simp
  refine ⟨hp, ?_, ?_, ?_, ?_⟩
  · rw [hfire]
    simp [hd]
  · rw [hfire]
  · intro t1
    rw [hfire]
    unfold statusUpdate
    simp
  · intro t2 a sp hns
    unfold statusUpdate
    simp only [hns]
    simp [fireEnabled, hd]

/-- Witness for C2: with status updates at 0 ms and 500 ms both showing
armed-and-not-spinning and the timer firing at expiry, exactly one disarm
is issued. -/
theorem watchdog_disarm_exactly_once_witness :
    (timerFire (statusUpdate (statusUpdate wdInit 0 true false) 500 true false)).disarms = 1 :=
  (watchdog_disarm_exactly_once 0 [500] wdInit rfl rfl rfl).2.1

/-! ## Status mask packing and decoding (metricIndicators.js / statusManager.js) -/

/-- The named boolean status flags of a `status` message, in the key order
of `constructStatusBits`'s `bitMapping`. -/
structure StatusFlags where
  usrCfgProfOk : Bool
  dshotOk : Bool
  kissTelemOk : Bool
  hx711Ok : Bool
  ntcSensorOk : Bool
  dshotTaskRunning : Bool
  kissTelemTaskRunning : Bool
  sensorTaskRunning : Bool
  armed : Bool
  spinning : Bool
  dshotSendOk : Bool
  kissTelemReadOk : Bool
  hx711TareOk : Bool
  hx711ReadOk : Bool
  ntcSensorReadOk : Bool
  warnBatteryLow : Bool
  warnEscOverheat : Bool
  warnMotorOverheat : Bool
  warnOverCurrent : Bool
  warnOverRpm : Bool
  warnMotorStall : Bool
  warnFullUsrCfgPrfls : Bool
  deriving Repr, DecidableEq

/-- Embedding of `constructStatusBits` for a message carrying named boolean
flags: starting from 0, each set flag ORs in `1 << k` at the bit position of
the `bitMapping` table. -/
def constructStatusBits (f : StatusFlags) : ℕ :=
  let b : ℕ := 0
  let b := if f.usrCfgProfOk then b ||| (1 <<< 0) else b
  let b := if f.dshotOk then b ||| (1 <<< 1) else b
  let b := if f.kissTelemOk then b ||| (1 <<< 2) else b
  let b := if f.hx711Ok then b ||| (1 <<< 3) else b
  let b := if f.ntcSensorOk then b ||| (1 <<< 4) else b
  let b := if f.dshotTaskRunning then b ||| (1 <<< 5) else b
  let b := if f.kissTelemTaskRunning then b ||| (1 <<< 6) else b
  let b := if f.sensorTaskRunning then b ||| (1 <<< 7) else b
  let b := if f.armed then b ||| (1 <<< 8) else b
  let b := if f.spinning then b ||| (1 <<< 9) else b
  let b := if f.dshotSendOk then b ||| (1 <<< 10) else b
  let b := if f.kissTelemReadOk then b ||| (1 <<< 11) else b
  let b := if f.hx711TareOk then b ||| (1 <<< 12) else b
  let b := if f.hx711ReadOk then b ||| (1 <<< 13) else b
  let b := if f.ntcSensorReadOk then b ||| (1 <<< 14) else b
  let b := if f.warnBatteryLow then b ||| (1 <<< 15) else b
  let b := if f.warnEscOverheat then b ||| (1 <<< 16) else b
  let b := if f.warnMotorOverheat then b ||| (1 <<< 17) else b
  let b := if f.warnOverCurrent then b ||| (1 <<< 18) else b
  let b := if f.warnOverRpm then b ||| (1 <<< 19) else b
  let b := if f.warnMotorStall then b ||| (1 <<< 20) else b
  let b := if f.warnFullUsrCfgPrfls then b ||| (1 <<< 21) else b
  b

/-- Readback of the 22 defined bits of a status mask via the `STATUS_BITS`
table of statusManager.js (`(status & BIT) !== 0`, as in
`updateStatusIndicators` and `checkMotorStatus`). -/
def readStatusFlags (m : ℕ) : StatusFlags where
  usrCfgProfOk := (m &&& (1 <<< 0)) != 0
  dshotOk := (m &&& (1 <<< 1)) != 0
  kissTelemOk := (m &&& (1 <<< 2)) != 0
  hx711Ok := (m &&& (1 <<< 3)) != 0
  ntcSensorOk := (m &&& (1 <<< 4)) != 0
  dshotTaskRunning := (m &&& (1 <<< 5)) != 0
  kissTelemTaskRunning := (m &&& (1 <<< 6)) != 0
  sensorTaskRunning := (m &&& (1 <<< 7)) != 0
  armed := (m &&& (1 <<< 8)) != 0
  spinning := (m &&& (1 <<< 9)) != 0
  dshotSendOk := (m &&& (1 <<< 10)) != 0
  kissTelemReadOk := (m &&& (1 <<< 11)) != 0
  hx711TareOk := (m &&& (1 <<< 12)) != 0
  hx711ReadOk := (m &&& (1 <<< 13)) != 0
  ntcSensorReadOk := (m &&& (1 <<< 14)) != 0
  warnBatteryLow := (m &&& (1 <<< 15)) != 0
  warnEscOverheat := (m &&& (1 <<< 16)) != 0
  warnMotorOverheat := (m &&& (1 <<< 17)) != 0
  warnOverCurrent := (m &&& (1 <<< 18)) != 0
  warnOverRpm := (m &&& (1 <<< 19)) != 0
  warnMotorStall := (m &&& (1 <<< 20)) != 0
  warnFullUsrCfgPrfls := (m &&& (1 <<< 21)) != 0

lemma and_shift_ne (m k : ℕ) : ((m &&& (1 <<< k)) != 0) = Nat.testBit m k := by
  rw [Nat.one_shiftLeft, Nat.and_two_pow]
  cases h : Nat.testBit m k
  · simp [h]
  · simp [h, bne_iff_ne]

/-- Generic form of the OR-accumulation in `constructStatusBits`: fold a
list of (flag, bit position) pairs into a mask. -/
def packList : List (Bool × ℕ) → ℕ :=
  fun l => l.foldl (fun acc p => if p.1 then acc ||| (1 <<< p.2) else acc) 0

lemma testBit_packList_aux (i : ℕ) :
    ∀ (l : List (Bool × ℕ)) (acc : ℕ),
      Nat.testBit (l.foldl (fun acc p => if p.1 then acc ||| (1 <<< p.2) else acc) acc) i
        = ((l.any fun p => p.1 && decide (p.2 = i)) || Nat.testBit acc i) := by
  intro l
  induction l with
  | nil => intro acc; simp
  | cons hd tl ih =>
    intro acc
    obtain ⟨c, k⟩ := hd
    rw [List.foldl_cons, ih]
    cases c with
    | false => simp
    | true =>
      simp only [List.any_cons, Nat.testBit_or, Nat.one_shiftLeft, Nat.testBit_two_pow,
        Bool.true_and]
      cases h : decide (k = i) <;>
        cases hta : (tl.any fun p => p.1 && decide (p.2 = i)) <;>
        cases htb : Nat.testBit acc i <;> simp [h, hta, htb, Nat.testBit_two_pow]

lemma testBit_packList (l : List (Bool × ℕ)) (i : ℕ) :
    Nat.testBit (packList l) i = (l.any fun p => p.1 && decide (p.2 = i)) := by
  rw [packList, testBit_packList_aux]
  simp

lemma constructStatusBits_eq_packList (f : StatusFlags) :
    constructStatusBits f = packList
      [(f.usrCfgProfOk, 0), (f.dshotOk, 1), (f.kissTelemOk, 2), (f.hx711Ok, 3),
       (f.ntcSensorOk, 4), (f.dshotTaskRunning, 5), (f.kissTelemTaskRunning, 6),
       (f.sensorTaskRunning, 7), (f.armed, 8), (f.spinning, 9), (f.dshotSendOk, 10),
       (f.kissTelemReadOk, 11), (f.hx711TareOk, 12), (f.hx711ReadOk, 13),
       (f.ntcSensorReadOk, 14), (f.warnBatteryLow, 15), (f.warnEscOverheat, 16),
       (f.warnMotorOverheat, 17), (f.warnOverCurrent, 18), (f.warnOverRpm, 19),
       (f.warnMotorStall, 20), (f.warnFullUsrCfgPrfls, 21)] := rfl

/-- Claim C9: packing any assignment of the named boolean status flags into
a mask with `constructStatusBits` and reading back each of the 22 defined
bits via the `STATUS_BITS` table reproduces the original flags exactly. -/
theorem status_bits_roundtrip (f : StatusFlags) :
    readStatusFlags (constructStatusBits f) = f := by
  obtain ⟨f1, f2, f3, f4, f5, f6, f7, f8, f9, f10, f11,
    f12, f13, f14, f15, f16, f17, f18, f19, f20, f21, f22⟩ := f
  simp only [readStatusFlags, StatusFlags.mk.injEq, and_shift_ne,
    constructStatusBits_eq_packList, testBit_packList]
  simp only [List.any_cons, List.any_nil]
  norm_num

/-! ## Command channel (`sendCommand` / `processCommandQueue` in bluetooth.js)

The queue worker is a single-threaded async loop; its suspension points are
the characteristic write (`await writeValue`) and the fixed 100 ms
inter-command delay (`await setTimeout(100)`). Everything between two
suspension points runs atomically, which the step relation below mirrors:
`doSend` models a `sendCommand` call (push plus the synchronous prefix of
`processCommandQueue` up to its first await), `doWriteOk`/`doWriteErr`
model the write settling, and `doDelay` models the delay elapsing followed
by the worker's synchronous continuation up to its next await. -/

/-- Observable events of the command channel, in program order. -/
inductive CEv where
  | enq (c : ℕ)
  | wstart (c : ℕ)
  | wok (c : ℕ)
  | werr (c : ℕ)
  | delayEnd (c : ℕ) (ms : ℕ)
  | res (c : ℕ)
  | rej (c : ℕ)
  deriving DecidableEq, Repr

/-- What the worker is currently awaiting. -/
inductive WPhase where
  | idle
  | writing (c : ℕ)
  | delaying (c : ℕ)
  deriving DecidableEq, Repr

/-- Channel state: the pending FIFO `commandQueue`, the `isProcessingQueue`
flag, the worker's suspension point, whether a command characteristic is
bound (`getCommandCharacteristic()` non-null), and the event trace. -/
structure CQState where
  queue : List ℕ
  processing : Bool
  phase : WPhase
  conn : Bool
  events : List CEv
  deriving DecidableEq, Repr

/-- Result of the worker's synchronous run from the top of its `while` loop
to the next suspension point (or loop exit). -/
structure SyncRes where
  queue : List ℕ
  phase : WPhase
  processing : Bool
  evs : List CEv
  deriving DecidableEq, Repr

/-- The worker's `while (commandQueue.length > 0)` loop, run synchronously:
each iteration shifts the head; without a bound characteristic the shifted
request is rejected at once and the loop continues; with one, the write is
started and the worker suspends awaiting it; an empty queue exits the loop
and clears `isProcessingQueue`. -/
def runSyncAux : List ℕ → Bool → SyncRes
  | [], _ => ⟨[], .idle, false, []⟩
  | c :: rest, conn =>
    if conn then ⟨rest, .writing c, true, [.wstart c]⟩
    else
      let r := runSyncAux rest conn
      ⟨r.queue, r.phase, r.processing, .rej c :: r.evs⟩

/-- Resume the worker loop on the current queue and append its events. -/
def applySync (s : CQState) : CQState :=
  let r := runSyncAux s.queue s.conn
  ⟨r.queue, r.processing, r.phase, s.conn, s.events ++ r.evs⟩

/-- Embedding of `sendCommand`: the request is always pushed onto
`commandQueue`, then `processCommandQueue()` is invoked, which returns at
once when `isProcessingQueue` is set and otherwise runs the worker loop up
to its first suspension point. -/
def doSend (s : CQState) (c : ℕ) : CQState :=
  let s1 : CQState := { s with queue := s.queue ++ [c], events := s.events ++ [.enq c] }
  if s.processing then s1 else applySync s1

/-- The awaited `writeValue` resolves: the worker proceeds to
`await setTimeout(100)`. -/
def doWriteOk (s : CQState) : CQState :=
  match s.phase with
  | .writing c => { s with phase := .delaying c, events := s.events ++ [.wok c] }
  | _ => s

/-- The awaited `writeValue` rejects: the `catch` rejects the request's
promise and the loop continues synchronously. -/
def doWriteErr (s : CQState) : CQState :=
  match s.phase with
  | .writing c => applySync { s with phase := .idle, events := s.events ++ [.werr c] }
  | _ => s

/-- The 100 ms delay elapses: the request's promise resolves and the loop
continues synchronously. -/
def doDelay (s : CQState) : CQState :=
  match s.phase with
  | .delaying c => applySync { s with phase := .idle, events := s.events ++ [.delayEnd c 100, .res c] }
  | _ => s

/-- The BLE connection / characteristic binding changes between turns. -/
def doSetConn (s : CQState) (b : Bool) : CQState := { s with conn := b }

/-- One event-loop turn of the command channel. -/
inductive QStep : CQState → CQState → Prop where
  | send (s : CQState) (c : ℕ) : QStep s (doSend s c)
  | wok (s : CQState) : QStep s (doWriteOk s)
  | werr (s : CQState) : QStep s (doWriteErr s)
  | delay (s : CQState) : QStep s (doDelay s)
  | setConn (s : CQState) (b : Bool) : QStep s (doSetConn s b)

/-- Initial channel state: empty queue, idle worker. -/
def cqInit (b : Bool) : CQState := ⟨[], false, .idle, b, []⟩

/-- States reachable from an initial state. -/
def CQReach (s : CQState) : Prop := ∃ b, Relation.ReflTransGen QStep (cqInit b) s

/-- Commands submitted via `sendCommand`, in call order. -/
def sentSeq (l : List CEv) : List ℕ :=
  l.filterMap fun e => match e with | .enq c => some c | _ => none

/-- Commands removed from the queue by the worker (written or rejected),
in processing order. -/
def procSeq (l : List CEv) : List ℕ :=
  l.filterMap fun e => match e with | .wstart c => some c | .rej c => some c | _ => none

/-- Commands whose characteristic write was started, in order. -/
def writeSeq (l : List CEv) : List ℕ :=
  l.filterMap fun e => match e with | .wstart c => some c | _ => none

/-- Number of write starts in a trace. -/
def wStarts (l : List CEv) : ℕ := l.countP fun e => match e with | .wstart _ => true | _ => false

/-- Number of settled writes (resolved or rejected) in a trace. -/
def wEnds (l : List CEv) : ℕ :=
  l.countP fun e => match e with | .wok _ => true | .werr _ => true | _ => false

/-- Shape automaton for well-formed channel traces: outside any write, a
write in flight, the post-write delay pending, or the delay just elapsed
(resolution imminent). -/
inductive AMode where
  | out
  | inW (c : ℕ)
  | del (c : ℕ)
  | jd (c : ℕ)
  deriving DecidableEq, Repr

/-- One automaton transition; `none` marks an impossible event order. -/
def aStep : AMode → CEv → Option AMode
  | m, .enq _ => some m
  | .out, .wstart c => some (.inW c)
  | .out, .rej _ => some .out
  | .inW c, .wok d => if d = c then some (.del c) else none
  | .inW c, .werr d => if d = c then some .out else none
  | .del c, .delayEnd d ms => if d = c ∧ ms = 100 then some (.jd c) else none
  | .jd c, .res d => if d = c then some .out else none
  | _, _ => none

/-- Run the shape automaton over a trace. -/
def runA : AMode → List CEv → Option AMode
  | m, [] => some m
  | m, e :: l =>
    match aStep m e with
    | some m1 => runA m1 l
    | none => none

/-- Automaton mode corresponding to a worker suspension point. -/
def modeOf : WPhase → AMode
  | .idle => .out
  | .writing c => .inW c
  | .delaying c => .del c

/-- Whether the worker is suspended inside the loop. -/
def phaseBusy : WPhase → Bool
  | .idle => false
  | _ => true

/-- Open-write count of an automaton mode. -/
def openW : AMode → ℕ
  | .inW _ => 1
  | _ => 0

/-- The channel invariant: the trace is accepted by the shape automaton
ending at the worker's suspension point, the submitted commands are exactly
the processed ones followed by the still-queued ones, and `isProcessingQueue`
is set exactly while the worker is suspended inside the loop. -/
def CQInv (s : CQState) : Prop :=
  runA .out s.events = some (modeOf s.phase)
  ∧ sentSeq s.events = procSeq s.events ++ s.queue
  ∧ s.processing = phaseBusy s.phase

lemma runA_append (m : AMode) (l1 l2 : List CEv) :
    runA m (l1 ++ l2) = match runA m l1 with
      | some m1 => runA m1 l2
      | none => none := by
  induction l1 generalizing m with
  | nil => simp [runA]
  | cons e l1 ih =>
    rw [List.cons_append, runA]
    cases h : aStep m e with
    | none => simp [runA, h]
    | some m1 => simpa [runA, h] using ih m1

lemma sentSeq_append (l1 l2 : List CEv) :
    sentSeq (l1 ++ l2) = sentSeq l1 ++ sentSeq l2 := List.filterMap_append l1 l2 _

lemma procSeq_append (l1 l2 : List CEv) :
    procSeq (l1 ++ l2) = procSeq l1 ++ procSeq l2 := List.filterMap_append l1 l2 _

lemma runSyncAux_auto (q : List ℕ) (conn : Bool) :
    runA .out (runSyncAux q conn).evs = some (modeOf (runSyncAux q conn).phase) := by
  induction q with
  | nil => simp [runSyncAux, runA, modeOf]
  | cons c rest ih =>
    by_cases hc : conn
    · simp [runSyncAux, hc, runA, aStep, modeOf]
    · simpa [runSyncAux, hc, runA, aStep] using ih

lemma runSyncAux_proc (q : List ℕ) (conn : Bool) :
    procSeq (runSyncAux q conn).evs ++ (runSyncAux q conn).queue = q := by
  induction q with
  | nil => simp [runSyncAux, procSeq]
  | cons c rest ih =>
    by_cases hc : conn
    · simp [runSyncAux, hc, procSeq]
    · simpa [runSyncAux, hc, procSeq] using ih

lemma runSyncAux_sent (q : List ℕ) (conn : Bool) :
    sentSeq (runSyncAux q conn).evs = [] := by
  induction q with
  | nil => simp [runSyncAux, sentSeq]
  | cons c rest ih =>
    by_cases hc : conn
    · simp [runSyncAux, hc, sentSeq]
    · simpa [runSyncAux, hc, sentSeq] using ih

lemma runSyncAux_busy (q : List ℕ) (conn : Bool) :
    (runSyncAux q conn).processing = phaseBusy (runSyncAux q conn).phase := by
  induction q with
  | nil => simp [runSyncAux, phaseBusy]
  | cons c rest ih =>
    by_cases hc : conn
    · simp [runSyncAux, hc, phaseBusy]
    · simpa [runSyncAux, hc] using ih

lemma cqInv_applySync (s : CQState) (h1 : runA .out s.events = some .out)
    (h2 : sentSeq s.events = procSeq s.events ++ s.queue) :
    CQInv (applySync s) := by
  refine ⟨?_, ?_, ?_⟩
  · show runA .out (s.events ++ (runSyncAux s.queue s.conn).evs) = _
    rw [runA_append, h1]
    exact runSyncAux_auto _ _
  · show sentSeq (s.events ++ (runSyncAux s.queue s.conn).evs)
      = procSeq (s.events ++ (runSyncAux s.queue s.conn).evs) ++ (runSyncAux s.queue s.conn).queue
    rw [sentSeq_append, procSeq_append, runSyncAux_sent, List.append_nil, h2,
      List.append_assoc, runSyncAux_proc]
  · exact runSyncAux_busy _ _

lemma cqInv_doSend (s : CQState) (c : ℕ) (h : CQInv s) : CQInv (doSend s c) := by
  obtain ⟨hA, hS, hP⟩ := h
  have hA1 : runA .out (s.events ++ [.enq c]) = some (modeOf s.phase) := by
    rw [runA_append, hA]
    simp [runA, aStep]
  have hS1 : sentSeq (s.events ++ [.enq c])
      = procSeq (s.events ++ [.enq c]) ++ (s.queue ++ [c]) := by
    rw [sentSeq_append, procSeq_append, hS]
    simp [sentSeq, procSeq]
  unfold doSend
  by_cases hp : s.processing
  · rw [if_pos hp]
    exact ⟨hA1, hS1, hP⟩
  · rw [if_neg hp]
    have hidle : s.phase = .idle := by
      cases hph : s.phase
      · rfl
      all_goals
        rw [hph] at hP
        simp [phaseBusy] at hP
        exact absurd hP hp
    apply cqInv_applySync
    · show runA .out (s.events ++ [.enq c]) = some .out
      rw [hA1, hidle]
      rfl
    · exact hS1

lemma cqInv_doWriteOk (s : CQState) (h : CQInv s) : CQInv (doWriteOk s) := by
  obtain ⟨hA, hS, hP⟩ := h
  unfold doWriteOk
  cases hph : s.phase with
  | idle => exact ⟨hA, hS, hP⟩
  | delaying c => exact ⟨hA, hS, hP⟩
  | writing c =>
    refine ⟨?_, ?_, ?_⟩
    · show runA .out (s.events ++ [.wok c]) = some (modeOf (.delaying c))
      rw [runA_append, hA, hph]
      simp [runA, aStep, modeOf]
    · show sentSeq (s.events ++ [.wok c]) = procSeq (s.events ++ [.wok c]) ++ s.queue
      rw [sentSeq_append, procSeq_append, hS]
      simp [sentSeq, procSeq]
    · show s.processing = phaseBusy (.delaying c)
      rw [hP, hph]
      rfl

lemma cqInv_doWriteErr (s : CQState) (h : CQInv s) : CQInv (doWriteErr s) := by
  obtain ⟨hA, hS, hP⟩ := h
  unfold doWriteErr
  cases hph : s.phase with
  | idle => exact ⟨hA, hS, hP⟩
  | delaying c => exact ⟨hA, hS, hP⟩
  | writing c =>
    apply cqInv_applySync
    · show runA .out (s.events ++ [.werr c]) = some .out
      rw [runA_append, hA, hph]
      simp [runA, aStep, modeOf]
    · show sentSeq (s.events ++ [.werr c]) = procSeq (s.events ++ [.werr c]) ++ s.queue
      rw [sentSeq_append, procSeq_append, hS]
      simp [sentSeq, procSeq]

lemma cqInv_doDelay (s : CQState) (h : CQInv s) : CQInv (doDelay s) := by
  obtain ⟨hA, hS, hP⟩ := h
  unfold doDelay
  cases hph : s.phase with
  | idle => exact ⟨hA, hS, hP⟩
  | writing c => exact ⟨hA, hS, hP⟩
  | delaying c =>
    apply cqInv_applySync
    · show runA .out (s.events ++ [.delayEnd c 100, .res c]) = some .out
      rw [runA_append, hA, hph]
      simp [runA, aStep, modeOf]
    · show sentSeq (s.events ++ [.delayEnd c 100, .res c])
        = procSeq (s.events ++ [.delayEnd c 100, .res c]) ++ s.queue
      rw [sentSeq_append, procSeq_append, hS]
      simp [sentSeq, procSeq]

lemma cqInv_doSetConn (s : CQState) (b : Bool) (h : CQInv s) : CQInv (doSetConn s b) := h

lemma cqInv_init (b : Bool) : CQInv (cqInit b) := by
  refine ⟨rfl, rfl, rfl⟩

/-- Every reachable channel state satisfies the invariant. -/
theorem cqInv_reach (s : CQState) (h : CQReach s) : CQInv s := by
  obtain ⟨b, hr⟩ := h
  induction hr with
  | refl => exact cqInv_init b
  | tail hr hstep ih =>
    cases hstep with
    | send c => exact cqInv_doSend _ c ih
    | wok => exact cqInv_doWriteOk _ ih
    | werr => exact cqInv_doWriteErr _ ih
    | delay => exact cqInv_doDelay _ ih
    | setConn b2 => exact cqInv_doSetConn _ b2 ih

lemma writeSeq_sublist_procSeq (l : List CEv) : List.Sublist (writeSeq l) (procSeq l) := by
  induction l with
  | nil => simp [writeSeq, procSeq]
  | cons e l ih =>
    cases e with
    | wstart c =>
      simpa [writeSeq, procSeq, List.filterMap_cons] using List.Sublist.cons₂ c ih
    | rej c =>
      simpa [writeSeq, procSeq, List.filterMap_cons] using List.Sublist.cons c ih
    | enq c => simpa [writeSeq, procSeq, List.filterMap_cons] using ih
    | wok c => simpa [writeSeq, procSeq, List.filterMap_cons] using ih
    | werr c => simpa [writeSeq, procSeq, List.filterMap_cons] using ih
    | delayEnd c ms => simpa [writeSeq, procSeq, List.filterMap_cons] using ih
    | res c => simpa [writeSeq, procSeq, List.filterMap_cons] using ih

lemma runA_append_some (m mf : AMode) (l1 l2 : List CEv)
    (h : runA m (l1 ++ l2) = some mf) : ∃ m1, runA m l1 = some m1 := by
  rw [runA_append] at h
  cases hh : runA m l1 with
  | none => rw [hh] at h; exact absurd h (by simp)
  | some m1 => exact ⟨m1, rfl⟩

lemma openW_le_one (m : AMode) : openW m ≤ 1 := by
  cases m <;> simp [openW]

lemma runA_count (l : List CEv) : ∀ m m1 : AMode, runA m l = some m1 →
    wStarts l + openW m = wEnds l + openW m1 := by
  induction l with
  | nil =>
    intro m m1 h
    simp only [runA, Option.some_inj] at h
    subst h
    rfl
  | cons e l ih =>
    intro m m1 h
    rw [runA] at h
    cases he : aStep m e with
    | none => rw [he] at h; exact absurd h (by simp)
    | some m2 =>
      rw [he] at h
      have hrec := ih m2 m1 h
      have hde : wStarts [e] + openW m = wEnds [e] + openW m2 := by
        cases e <;> cases m <;> simp only [aStep] at he <;> (try split at he) <;>
          cases he <;> simp [wStarts, wEnds, openW]
      have hS : wStarts (e :: l) = wStarts l + wStarts [e] := by
        unfold wStarts
        simp [List.countP_cons]
      have hE : wEnds (e :: l) = wEnds l + wEnds [e] := by
        unfold wEnds
        simp [List.countP_cons]
      rw [hS, hE]
      omega

/-- If the delay after `c`'s write has not elapsed, no further write can
start: the automaton rejects any such continuation. -/
lemma runA_del_stuck (c cw : ℕ) (C : List CEv) :
    ∀ B : List CEv, CEv.delayEnd c 100 ∉ B →
      runA (.del c) (B ++ .wstart cw :: C) = none := by
  intro B
  induction B with
  | nil => intro _; simp [runA, aStep]
  | cons e B ih =>
    intro hnot
    have hne : e ≠ CEv.delayEnd c 100 := fun he => hnot (by rw [he]; exact List.mem_cons_self _ _)
    have hnot2 : CEv.delayEnd c 100 ∉ B := fun hm => hnot (List.mem_cons_of_mem _ hm)
    rw [List.cons_append, runA]
    cases e with
    | enq d => simpa [aStep] using ih hnot2
    | delayEnd d ms =>
      by_cases hd : d = c ∧ ms = 100
      · exact absurd (by rw [hd.1, hd.2]) hne
      · simp [aStep, hd]
    | wstart d => simp [aStep]
    | wok d => simp [aStep]
    | werr d => simp [aStep]
    | res d => simp [aStep]
    | rej d => simp [aStep]

lemma runA_cons (m : AMode) (e : CEv) (l : List CEv) :
    runA m (e :: l) = match aStep m e with
      | some m1 => runA m1 l
      | none => none := rfl

lemma delay_between_writes (l : List CEv) (mf : AMode) (hA : runA .out l = some mf) :
    ∀ (A : List CEv) (c : ℕ) (B : List CEv) (cw : ℕ) (C : List CEv),
      l = A ++ .wok c :: (B ++ .wstart cw :: C) → CEv.delayEnd c 100 ∈ B := by
  intro A c B cw C hsplit
  by_contra hnot
  rw [hsplit] at hA
  obtain ⟨mA, hmA⟩ := runA_append_some _ _ A _ hA
  rw [runA_append, hmA] at hA
  have hA1 : runA mA (CEv.wok c :: (B ++ CEv.wstart cw :: C)) = some mf := hA
  rw [runA_cons] at hA1
  cases he : aStep mA (CEv.wok c) with
  | none => rw [he] at hA1; exact absurd hA1 (by simp)
  | some m2 =>
    rw [he] at hA1
    have hA2 : runA m2 (B ++ CEv.wstart cw :: C) = some mf := hA1
    cases mA with
    | out => simp [aStep] at he
    | del d => simp [aStep] at he
    | jd d => simp [aStep] at he
    | inW d =>
      simp only [aStep] at he
      split at he
      · rename_i hcd
        cases he
        subst hcd
        rw [runA_del_stuck c cw C B hnot] at hA2
        exact absurd hA2 (by simp)
      · exact absurd he (by simp)

/-- Claim C3: in every reachable channel state, the commands processed so
far (in order) followed by the still-queued commands are exactly the
commands passed to `send` in call order — so characteristic writes are
issued in FIFO order, an order-preserving subsequence of the send order;
every prefix of the trace has at most one unsettled write (single-flight);
and between a successful write and any later write start the fixed 100 ms
delay event for the completed command occurs. -/
theorem commandChannel_fifo_single_flight (s : CQState) (h : CQReach s) :
    sentSeq s.events = procSeq s.events ++ s.queue
    ∧ List.Sublist (writeSeq s.events) (sentSeq s.events)
    ∧ (∀ p t : List CEv, s.events = p ++ t → wEnds p ≤ wStarts p ∧ wStarts p ≤ wEnds p + 1)
    ∧ (∀ (A : List CEv) (c : ℕ) (B : List CEv) (cw : ℕ) (C : List CEv),
        s.events = A ++ .wok c :: (B ++ .wstart cw :: C) → CEv.delayEnd c 100 ∈ B) := by
  obtain ⟨hA, hS, hP⟩ := cqInv_reach s h
  refine ⟨hS, ?_, ?_, ?_⟩
  · rw [hS]
    exact (writeSeq_sublist_procSeq _).trans (List.sublist_append_left _ _)
  · intro p t hsplit
    rw [hsplit] at hA
    obtain ⟨mp, hmp⟩ := runA_append_some _ _ p _ hA
    have hc := runA_count p .out mp hmp
    have h1 := openW_le_one mp
    rw [show openW AMode.out = 0 from rfl] at hc
    omega
  · exact delay_between_writes s.events _ hA

/-- Witness for C3: a concrete reachable state (one command sent while
connected, its write completed) satisfies the FIFO equation. -/
theorem commandChannel_fifo_single_flight_witness :
    sentSeq (doWriteOk (doSend (cqInit true) 5)).events
      = procSeq (doWriteOk (doSend (cqInit true) 5)).events
        ++ (doWriteOk (doSend (cqInit true) 5)).queue :=
  (commandChannel_fifo_single_flight _ ⟨true,
    Relation.ReflTransGen.tail
      (Relation.ReflTransGen.tail Relation.ReflTransGen.refl (QStep.send _ 5))
      (QStep.wok _)⟩).1

/-- Counterexample to C4 as stated: a `send` made while disconnected still
pushes the request onto `commandQueue` (the `enq` event) before the worker
dequeues and rejects it — the command is placed in the queue. -/
theorem send_not_connected_enqueued_counterexample :
    CEv.enq 7 ∈ (doSend (cqInit false) 7).events
    ∧ CEv.rej 7 ∈ (doSend (cqInit false) 7).events := by
  decide

/-- Claim C4 (amended): a `send` with no bound write characteristic and an
idle worker always enqueues the command and then, synchronously within the
same call, the worker dequeues and rejects it; the call leaves the queue
empty and the worker idle. The promise is rejected, but only after the
command has been placed in the queue. -/
theorem send_disconnected_enqueues_then_rejects (s : CQState) (c : ℕ)
    (hc : s.conn = false) (hp : s.processing = false) (hq : s.queue = []) :
    (doSend s c).events = s.events ++ [CEv.enq c, CEv.rej c]
    ∧ (doSend s c).queue = []
    ∧ (doSend s c).processing = false := by
  unfold doSend
  rw [if_neg (by rw [hp]; simp)]
  unfold applySync
  simp [hq, hc, runSyncAux]

/-- Witness for C4 (amended): the concrete disconnected idle state. -/
theorem send_disconnected_enqueues_then_rejects_witness :
    (doSend (cqInit false) 7).events = [CEv.enq 7, CEv.rej 7]
    ∧ (doSend (cqInit false) 7).queue = [] := by
  have h := send_disconnected_enqueues_then_rejects (cqInit false) 7 rfl rfl rfl
  exact ⟨by simpa using h.1, h.2.1⟩

/-! ## Analyzer regression (`linearRegression` in analizeTab)

Division follows the `ℚ` convention `x / 0 = 0` where the JS source would
produce `Infinity`/`NaN`; record contents are therefore only asserted under
the explicit hypothesis that the denominator is nonzero, where the two
semantics agree. Whether `null` is returned is unaffected: the source
returns `null` only on the `n < 2` check, before any division. -/

/-- Sum of the x coordinates (the source's `sumX` accumulator). -/
def sumX (pts : List (ℚ × ℚ)) : ℚ := (pts.map fun p => p.1).sum

/-- Sum of the y coordinates. -/
def sumY (pts : List (ℚ × ℚ)) : ℚ := (pts.map fun p => p.2).sum

/-- Sum of the products `x * y`. -/
def sumXY (pts : List (ℚ × ℚ)) : ℚ := (pts.map fun p => p.1 * p.2).sum

/-- Sum of the squares `x * x`. -/
def sumXX (pts : List (ℚ × ℚ)) : ℚ := (pts.map fun p => p.1 * p.1).sum

/-- The slope denominator `n * sumXX - sumX * sumX`; zero exactly on a
degenerate x-range. -/
def lrDenom (pts : List (ℚ × ℚ)) : ℚ :=
  (pts.length : ℚ) * sumXX pts - sumX pts * sumX pts

/-- The least-squares slope as computed by the source. -/
def lrSlope (pts : List (ℚ × ℚ)) : ℚ :=
  ((pts.length : ℚ) * sumXY pts - sumX pts * sumY pts) / lrDenom pts

/-- The intercept as computed by the source. -/
def lrIntercept (pts : List (ℚ × ℚ)) : ℚ :=
  (sumY pts - lrSlope pts * sumX pts) / (pts.length : ℚ)

/-- The `r2` of the returned record, expressed via the named slope and
intercept. -/
def lrR2 (pts : List (ℚ × ℚ)) : ℚ :=
  1 - ((pts.map fun p => (p.2 - (lrSlope pts * p.1 + lrIntercept pts))^2).sum)
      / ((pts.map fun p => (p.2 - sumY pts / (pts.length : ℚ))^2).sum)

/-- Embedding of `linearRegression(points)`: `null` for fewer than 2 points,
otherwise the `{slope, intercept, r2}` record with the accumulator-based
least-squares formulas. -/
def linearRegression (pts : List (ℚ × ℚ)) : Option (ℚ × ℚ × ℚ) :=
  if pts.length < 2 then none
  else
    let n : ℚ := pts.length
    let slope := (n * sumXY pts - sumX pts * sumY pts) / (n * sumXX pts - sumX pts * sumX pts)
    let intercept := (sumY pts - slope * sumX pts) / n
    let meanY := sumY pts / n
    let ssRes := (pts.map fun p => (p.2 - (slope * p.1 + intercept))^2).sum
    let ssTot := (pts.map fun p => (p.2 - meanY)^2).sum
    some (slope, intercept, 1 - ssRes / ssTot)

/-- Counterexample to C8 as stated: two points with the same x (degenerate
x-range) still produce a non-null result — the source only returns `null`
on the point-count check and divides by zero on a degenerate x-range. -/
theorem linearRegression_degenerate_counterexample :
    linearRegression [(1, 1), (1, 2)] ≠ none := by
  simp [linearRegression]

/-- Claim C8 (amended): `linearRegression` returns `null` exactly when the
input has fewer than 2 points; a degenerate x-range with at least 2 points
yields a (meaningless, divided-by-zero) record rather than `null`; and
whenever the x-range is non-degenerate the returned slope and intercept
satisfy the least-squares normal equations. -/
theorem linearRegression_null_and_normal_equations (pts : List (ℚ × ℚ)) :
    ((linearRegression pts = none) ↔ pts.length < 2)
    ∧ (2 ≤ pts.length → lrDenom pts ≠ 0 →
        ∃ r2 : ℚ, linearRegression pts = some (lrSlope pts, lrIntercept pts, r2)
          ∧ lrSlope pts * sumXX pts + lrIntercept pts * sumX pts = sumXY pts
          ∧ lrSlope pts * sumX pts + lrIntercept pts * (pts.length : ℚ) = sumY pts) := by
  constructor
  · unfold linearRegression
    split_ifs with h
    · simp [h]
    · simp [h]
  · intro h2 hD
    have hnot : ¬ pts.length < 2 := by omega
    have hn : (pts.length : ℚ) ≠ 0 := by
      exact_mod_cast Nat.cast_ne_zero.mpr (by omega)
    unfold lrDenom at hD
    refine ⟨lrR2 pts, ?_, ?_, ?_⟩
    · unfold linearRegression
      rw [if_neg hnot]
      simp only [lrR2, lrIntercept, lrSlope, lrDenom]
    · simp only [lrIntercept, lrSlope, lrDenom]
      field_simp
      ring
    · simp only [lrIntercept, lrSlope, lrDenom]
      field_simp
      ring

/-- Witness for C8 (amended): the two points (0,1), (1,3) give a defined
regression satisfying the normal equations. -/
theorem linearRegression_null_and_normal_equations_witness :
    ∃ r2 : ℚ, linearRegression [(0, 1), (1, 3)]
        = some (lrSlope [(0, 1), (1, 3)], lrIntercept [(0, 1), (1, 3)], r2)
      ∧ lrSlope [(0, 1), (1, 3)] * sumXX [(0, 1), (1, 3)]
          + lrIntercept [(0, 1), (1, 3)] * sumX [(0, 1), (1, 3)] = sumXY [(0, 1), (1, 3)]
      ∧ lrSlope [(0, 1), (1, 3)] * sumX [(0, 1), (1, 3)]
          + lrIntercept [(0, 1), (1, 3)] * (([(0, 1), (1, 3)] : List (ℚ × ℚ)).length : ℚ)
          = sumY [(0, 1), (1, 3)] :=
  (linearRegression_null_and_normal_equations [(0, 1), (1, 3)]).2 (by decide)
    (by norm_num [lrDenom, sumXX, sumX])

end UavmLab
